import Mathlib

/-!
Shallow embedding of the data-processing utilities in
`nerfstudio/process_data/process_data_utils.py` (video frame extraction,
still-image copying, mask generation, and the SfM tool/feature/matcher
resolver), together with theorems checking the module's specification
against the code.

Modelling conventions:
* Python `Path` values are modelled by `FPath` (parent directory, base
  name, suffix); `Path.suffix` is the `ext` field.
* Fatal `sys.exit(1)` calls and uncaught Python exceptions are modelled
  with `Except PyErr`.
* The user-supplied fractional parameters (crop fractions, mask radius)
  are modelled by `ℚ`, giving the exact real semantics of the arithmetic
  expressions the code evaluates on them.
* numpy arrays are `List (List ℕ)` matrices (row-major, value per pixel).
-/

/-- Python exceptions / process exits that the modelled code can raise. -/
inductive PyErr where
  | indexError
  | zeroDivision
  | valueError
  | systemExit (code : ℕ)
  deriving DecidableEq, Repr

/-- Model of `pathlib.Path`: parent directory, base name (stem) and
suffix (with its leading dot). -/
structure FPath where
  dir : String
  base : String
  ext : String
  deriving DecidableEq, Repr

/-- Lowercase suffixes to treat as raw image (module constant
`ALLOWED_RAW_EXTS`, line 42). -/
def ALLOWED_RAW_EXTS : List String := [".cr2"]

/-- Suffix to use for converted images from raw (module constant
`RAW_CONVERTED_SUFFIX`, line 44). -/
def RAW_CONVERTED_SUFFIX : String := ".jpg"

/-- Python `str.lower()` (ASCII lowercasing of a suffix). -/
def strLower (s : String) : String := String.mk (s.data.map Char.toLower)

/-- Python `f"{n:05d}"` for a natural number. -/
def pad5 (n : ℕ) : String :=
  String.mk (List.replicate (5 - (toString n).length) '0') ++ toString n

/-- Destination path for the 0-based index `idx` input image in
`copy_images_list` (lines 275–279):
`image_dir / f"{image_prefix}{idx+1:05d}{suffix}"`, where the suffix is
`RAW_CONVERTED_SUFFIX` for recognized raw inputs and the original suffix
otherwise. -/
def destFor (image_dir pfx : String) (idx : ℕ) (p : FPath) : FPath :=
  if strLower p.ext ∈ ALLOWED_RAW_EXTS then
    ⟨image_dir, pfx ++ pad5 (idx + 1), RAW_CONVERTED_SUFFIX⟩
  else
    ⟨image_dir, pfx ++ pad5 (idx + 1), p.ext⟩

/-- The copy loop of `copy_images_list` (lines 272–295), starting at the
0-based index `idx`: first component is the final state of the
`image_paths` list (the loop overwrites `image_paths[idx]` with the
converted destination when the input is raw, line 283), second component
is the accumulated `copied_image_paths`. -/
def copyLoopAux (image_dir pfx : String) : ℕ → List FPath → List FPath × List FPath
  | _, [] => ([], [])
  | idx, p :: rest =>
    let dest := destFor image_dir pfx idx p
    let tail := copyLoopAux image_dir pfx (idx + 1) rest
    ((if strLower p.ext ∈ ALLOWED_RAW_EXTS then dest else p) :: tail.1, dest :: tail.2)

/-- The copy loop of `copy_images_list` started at index 0. -/
def copyImagesLoop (image_dir pfx : String) (image_paths : List FPath) :
    List FPath × List FPath :=
  copyLoopAux image_dir pfx 0 image_paths

/-- Value/exception behaviour of `copy_images_list` (lines 232–350).
Directory bookkeeping and the spawned transcoder processes do not feed
back into the returned value and are not part of this definition.  The
batched downscale pass iterates
`for framenum in range(1, (1 if same_dimensions else num_frames) + 1)`
(line 315) and its body evaluates `copied_image_paths[0].suffix`
(line 317), which raises `IndexError` when that list is empty. -/
def copy_images_list (image_dir pfx : String) (image_paths : List FPath)
    (same_dimensions : Bool) : Except PyErr (List FPath) :=
  let copied := (copyImagesLoop image_dir pfx image_paths).2
  let num_frames := (copyImagesLoop image_dir pfx image_paths).1.length
  let iters := if same_dimensions then 1 else num_frames
  if 1 ≤ iters ∧ copied = [] then Except.error PyErr.indexError
  else Except.ok copied

/-- The pairing built by `copy_images` (line 436) after its nonempty-scan
check: it zips the very list object it passed to `copy_images_list`
(mutated in place by the raw-conversion branch) with the returned copied
paths. -/
def copy_images_pairs (image_dir pfx : String) (image_paths : List FPath) :
    List (FPath × FPath) :=
  ((copyImagesLoop image_dir pfx image_paths).1).zip
    ((copyImagesLoop image_dir pfx image_paths).2)

/-- Model of `find_tool_feature_matcher_combination` (lines 557–577),
over the string literals of the declared input types; the all-`none`
triple is the "no valid combination" sentinel `(None, None, None)`. -/
def find_tool_feature_matcher_combination (sfm_tool feature_type matcher_type : String) :
    Option String × Option String × Option String :=
  let sfm_tool :=
    if sfm_tool = "any" then
      if (feature_type = "any" ∨ feature_type = "sift") ∧
          (matcher_type = "any" ∨ matcher_type = "NN") then "colmap" else "hloc"
    else sfm_tool
  if sfm_tool = "colmap" then
    if ¬ ((feature_type = "any" ∨ feature_type = "sift") ∧
        (matcher_type = "any" ∨ matcher_type = "NN")) then (none, none, none)
    else (some "colmap", some "sift", some "NN")
  else if sfm_tool = "hloc" then
    let feature_type :=
      if feature_type = "any" ∨ feature_type = "superpoint" then "superpoint_aachen"
      else feature_type
    let matcher_type :=
      if matcher_type = "any" then "superpoint+lightglue"
      else if matcher_type = "NN" then "NN-mutual"
      else matcher_type
    (some sfm_tool, some feature_type, some matcher_type)
  else (none, none, none)

/-- The documented `feature_type` input literals (lines 494–505). -/
def featureLits : List String :=
  ["any", "sift", "superpoint", "superpoint_aachen", "superpoint_max",
   "superpoint_inloc", "r2d2", "d2net-ss", "sosnet", "disk"]

/-- The documented `matcher_type` input literals (lines 506–517). -/
def matcherLits : List String :=
  ["any", "NN", "superglue", "superglue-fast", "NN-superpoint", "NN-ratio",
   "NN-mutual", "adalam", "disk+lightglue", "superpoint+lightglue"]

/-- The concrete feature types of the declared return type (lines 522–531). -/
def featureOutLits : List String :=
  ["sift", "superpoint_aachen", "superpoint_max", "superpoint_inloc", "r2d2",
   "d2net-ss", "sosnet", "disk"]

/-- The concrete matcher types of the declared return type (lines 532–542). -/
def matcherOutLits : List String :=
  ["NN", "superglue", "superglue-fast", "NN-superpoint", "NN-ratio",
   "NN-mutual", "adalam", "disk+lightglue", "superpoint+lightglue"]

/-- Frame-selection policy of `convert_video_to_images`. -/
inductive SelectPolicy where
  | randomSample (indices : List ℕ)
  | thumbnail (spacing : ℕ)
  | allFrames
  deriving DecidableEq, Repr

/-- Python truthiness of the `Optional[int]` seed (`if random_seed:`,
line 202): `None` and `0` are falsy, every other integer is truthy. -/
def truthySeed : Option ℤ → Bool
  | none => false
  | some v => decide (v ≠ 0)

/-- Modelled from the spec: one step of a deterministic
linear-congruential generator standing in for the seeded stdlib
pseudo-random generator, which is library code outside this repository;
the spec only requires a deterministic sample. -/
def lcgStep (x : ℕ) : ℕ := (1103515245 * x + 12345) % 4294967296

/-- Modelled from the spec: draw without replacement from `pool`,
`k` times, deterministically from the generator state `st`. -/
def sampleAux : ℕ → ℕ → List ℕ → List ℕ
  | _, 0, _ => []
  | st, k + 1, pool =>
    if h : pool.length = 0 then []
    else
      let x := pool.get ⟨st % pool.length, Nat.mod_lt _ (Nat.pos_of_ne_zero h)⟩
      x :: sampleAux (lcgStep st) k (pool.erase x)

/-- Modelled from the spec: `sorted(random.sample(range(n), t))` seeded
with `seed` (line 203–204) — a deterministic sorted sample of `t`
distinct indices from `[0, n)`; the stdlib `random` module is outside
this repository, and the spec requires only a sorted deterministic
sample of distinct in-range indices. -/
def sampleSorted (seed : ℤ) (n t : ℕ) : List ℕ :=
  List.insertionSort (· ≤ ·) (sampleAux (seed.natAbs % 4294967296) t (List.range n))

/-- The `select` filter string of the random-seed branch (line 205). -/
def randomSelectCmd (indices : List ℕ) : String :=
  "select='" ++
    String.intercalate "+" (indices.map (fun i => "eq(n\\," ++ toString i ++ ")")) ++
    "',setpts=N/TB,"

/-- The `thumbnail` interval filter string (line 209). -/
def thumbnailCmd (spacing : ℕ) : String :=
  "thumbnail=" ++ toString spacing ++ ",setpts=N/TB,"

/-- Ceiling division on naturals, the exact value of
`math.ceil(a / b)` for `b > 0`. -/
def ceilNat (a b : ℕ) : ℕ := (a + b - 1) / b

/-- Outcome of the frame-selection block of `convert_video_to_images`
(lines 200–213): chosen policy, the `select_cmd` filter fragment,
whether `-pix_fmt bgr8` was appended to the command, whether the
cannot-satisfy warning was printed, and the frame count announced on the
console (`None` when the all-frames warning is printed instead). -/
structure FrameSelectOut where
  policy : SelectPolicy
  select_cmd : String
  pix_fmt_forced : Bool
  warned : Bool
  reportedFrames : Option ℕ
  deriving DecidableEq, Repr

/-- The frame-selection block of `convert_video_to_images`
(lines 200–213).  `spacing = num_frames // num_frames_target` is
computed unconditionally (so a target of 0 raises `ZeroDivisionError`
before any branch), and the seeded branch is guarded by Python
truthiness of the seed (`if random_seed:`); `random.sample` raises
`ValueError` when the target exceeds the population size. -/
def frameSelect (random_seed : Option ℤ) (num_frames num_frames_target : ℕ) :
    Except PyErr FrameSelectOut :=
  if num_frames_target = 0 then Except.error PyErr.zeroDivision
  else
    let spacing := num_frames / num_frames_target
    if truthySeed random_seed then
      if num_frames < num_frames_target then Except.error PyErr.valueError
      else
        let idxs := sampleSorted (random_seed.getD 0) num_frames num_frames_target
        Except.ok ⟨SelectPolicy.randomSample idxs, randomSelectCmd idxs, false, false,
          some num_frames_target⟩
    else if 1 < spacing then
      Except.ok ⟨SelectPolicy.thumbnail spacing, thumbnailCmd spacing, false, false,
        some (ceilNat num_frames spacing)⟩
    else
      Except.ok ⟨SelectPolicy.allFrames, "", true, true, none⟩

/-- Filesystem / process events of `convert_video_to_images` (writes,
deletions, process exit and the transcoder invocation; read-only frame
counting is not traced). -/
inductive FsEvent where
  | rmTree (dir : String)
  | mkDir (dir : String)
  | runTranscoder
  | exitProc (code : ℕ)
  deriving DecidableEq, Repr

/-- Name of pyramid-level directory `i`: level 0 is `image_dir` itself,
level `i > 0` is `f"{image_dir}_{2**i}"` (lines 151, 185). -/
def levelDir (image_dir : String) (i : ℕ) : String :=
  if i = 0 then image_dir else image_dir ++ "_" ++ toString (2 ^ i)

/-- Environment facts about the video path that
`convert_video_to_images` consults. -/
structure VideoEnv where
  isDir : Bool
  fileExists : Bool
  numFrames : ℕ
  deriving DecidableEq, Repr

/-- Whether some crop fraction lies outside `[0, 1]` (the loop of
lines 155–158, and the range check of `generate_crop_mask`, line 616). -/
def cropOutOfRange (c : ℚ × ℚ × ℚ × ℚ) : Bool :=
  decide (c.1 < 0 ∨ 1 < c.1) || decide (c.2.1 < 0 ∨ 1 < c.2.1) ||
    decide (c.2.2.1 < 0 ∨ 1 < c.2.2.1) || decide (c.2.2.2 < 0 ∨ 1 < c.2.2.2)

/-- Event trace of `convert_video_to_images` up to and including the
transcoder invocation (lines 148–221), given the environment facts. -/
def convertVideoTrace (env : VideoEnv) (image_dir : String) (num_downscales : ℕ)
    (crop_factor : ℚ × ℚ × ℚ × ℚ) (keep_image_dir : Bool) : List FsEvent :=
  let rms := if keep_image_dir then []
    else (List.range (num_downscales + 1)).map (fun i => FsEvent.rmTree (levelDir image_dir i))
  let pre := rms ++ [FsEvent.mkDir image_dir]
  if cropOutOfRange crop_factor then pre ++ [FsEvent.exitProc 1]
  else if env.isDir then pre ++ [FsEvent.exitProc 1]
  else if !env.fileExists then pre ++ [FsEvent.exitProc 1]
  else if env.numFrames = 0 then pre ++ [FsEvent.exitProc 1]
  else
    pre ++ (List.range (num_downscales + 1)).map (fun i => FsEvent.mkDir (levelDir image_dir i))
      ++ [FsEvent.runTranscoder]

/-- Map with the element index, used to model indexed writes into a
numpy array. -/
def mapWithIdx {α β : Type} (f : ℕ → α → β) : ℕ → List α → List β
  | _, [] => []
  | i, x :: xs => f i x :: mapWithIdx f (i + 1) xs

/-- An `h × w` matrix given by an entry function (row index first). -/
def mkMat (h w : ℕ) (f : ℕ → ℕ → ℕ) : List (List ℕ) :=
  (List.range h).map (fun y => (List.range w).map (fun x => f y x))

/-- Model of `np.zeros((h, w))`. -/
def np_zeros (h w : ℕ) : List (List ℕ) := mkMat h w (fun _ _ => 0)

/-- Modelled from the spec: `cv2.circle(mask, (cx, cy), radius, v, -1)`
is an external drawing routine; the spec describes it as filling the
disk of pixel radius `radius` around `(cx, cy)` — value `v` on every
pixel whose Euclidean distance from the center is at most `radius`,
other entries unchanged. -/
def cv2_circle (m : List (List ℕ)) (cx cy radius v : ℕ) : List (List ℕ) :=
  mapWithIdx (fun y row =>
    mapWithIdx (fun x p =>
      if ((x : ℤ) - cx) ^ 2 + ((y : ℤ) - cy) ^ 2 ≤ (radius : ℤ) ^ 2 then v else p) 0 row) 0 m

/-- numpy slice assignment `m[r0:r1, c0:c1] = v` for the nonnegative
slice bounds generated here (out-of-length bounds clamp, exactly as the
indexed map silently ignores indices past the end of a row/column). -/
def sliceAssign2 (m : List (List ℕ)) (r0 r1 c0 c1 v : ℕ) : List (List ℕ) :=
  mapWithIdx (fun y row =>
    if r0 ≤ y ∧ y < r1 then
      mapWithIdx (fun x p => if c0 ≤ x ∧ x < c1 then v else p) 0 row
    else row) 0 m

/-- Python `int(q)` for the nonnegative exact values appearing here
(truncation coincides with the floor). -/
def toNatFloor (q : ℚ) : ℕ := (⌊q⌋).toNat

/-- Exact value of `int(percent_radius * np.sqrt(width**2 + height**2) / 2.0)`
(line 598): for `percent_radius = p/q > 0` in lowest terms this is
`⌊p·√(w²+h²)/(2q)⌋ = ⌊√(p²·(w²+h²))⌋ / (2q) = Nat.sqrt (p²·(w²+h²)) / (2q)`. -/
def circleRadius (r : ℚ) (h w : ℕ) : ℕ :=
  Nat.sqrt (r.num.toNat ^ 2 * (w ^ 2 + h ^ 2)) / (2 * r.den)

/-- Model of `generate_circle_mask` (lines 580–600). -/
def generate_circle_mask (h w : ℕ) (r : ℚ) : Except PyErr (Option (List (List ℕ))) :=
  if r ≤ 0 then Except.error (PyErr.systemExit 1)
  else if 1 ≤ r then Except.ok none
  else Except.ok (some (cv2_circle (np_zeros h w) (w / 2) (h / 2) (circleRadius r h w) 1))

/-- Model of `generate_crop_mask` (lines 603–626). -/
def generate_crop_mask (h w : ℕ) (c : ℚ × ℚ × ℚ × ℚ) : Except PyErr (Option (List (List ℕ))) :=
  if c = (0, 0, 0, 0) then Except.ok none
  else if cropOutOfRange c then Except.error (PyErr.systemExit 1)
  else
    let top := toNatFloor (c.1 * h)
    let bottom := toNatFloor (c.2.1 * h)
    let left := toNatFloor (c.2.2.1 * w)
    let right := toNatFloor (c.2.2.2 * w)
    Except.ok (some (sliceAssign2 (np_zeros h w) top (h - bottom) left (w - right) 1))

/-- Elementwise product of same-shape matrices
(`crop_mask * circle_mask`, line 652). -/
def matProd (a b : List (List ℕ)) : List (List ℕ) :=
  List.zipWith (fun ra rb => List.zipWith (fun u v => u * v) ra rb) a b

/-- Model of `generate_mask` (lines 629–652): the crop mask is computed
first, then the circle mask (so a fatal exit in either propagates in
that order), then the two are combined. -/
def generate_mask (h w : ℕ) (c : ℚ × ℚ × ℚ × ℚ) (r : ℚ) :
    Except PyErr (Option (List (List ℕ))) :=
  match generate_crop_mask h w c with
  | Except.error e => Except.error e
  | Except.ok crop_mask =>
    match generate_circle_mask h w r with
    | Except.error e => Except.error e
    | Except.ok circle_mask =>
      match crop_mask with
      | none => Except.ok circle_mask
      | some cm =>
        match circle_mask with
        | none => Except.ok (some cm)
        | some km => Except.ok (some (matProd cm km))

/-- Number of pixels holding value 1. -/
def maskOnes (m : List (List ℕ)) : ℕ :=
  (m.map (fun row => row.countP (fun v => v == 1))).sum

theorem copyLoopAux_snd_length (d p : String) (l : List FPath) :
    ∀ i, ((copyLoopAux d p i l).2).length = l.length := by
  induction l with
  | nil => intro i; rfl
  | cons x xs ih => intro i; simp [copyLoopAux, ih (i + 1)]

theorem copyLoopAux_fst_length (d p : String) (l : List FPath) :
    ∀ i, ((copyLoopAux d p i l).1).length = l.length := by
  induction l with
  | nil => intro i; rfl
  | cons x xs ih => intro i; simp [copyLoopAux, ih (i + 1)]

theorem copyLoopAux_snd_get (d p : String) (l : List FPath) :
    ∀ i j x, l[j]? = some x →
      ((copyLoopAux d p i l).2)[j]? = some (destFor d p (i + j) x) := by
  induction l with
  | nil => intro i j x h; simp at h
  | cons y ys ih =>
    intro i j x h
    cases j with
    | zero =>
      simp only [List.getElem?_cons_zero, Option.some.injEq] at h
      subst h
      simp [copyLoopAux]
    | succ j' =>
      simp only [List.getElem?_cons_succ] at h
      have h2 := ih (i + 1) j' x h
      simp only [copyLoopAux, List.getElem?_cons_succ]
      rw [h2]
      congr 2
      omega

theorem copyLoopAux_fst_get (d p : String) (l : List FPath) :
    ∀ i j x, l[j]? = some x →
      ((copyLoopAux d p i l).1)[j]? =
        some (if strLower x.ext ∈ ALLOWED_RAW_EXTS then destFor d p (i + j) x else x) := by
  induction l with
  | nil => intro i j x h; simp at h
  | cons y ys ih =>
    intro i j x h
    cases j with
    | zero =>
      simp only [List.getElem?_cons_zero, Option.some.injEq] at h
      subst h
      simp [copyLoopAux]
    | succ j' =>
      simp only [List.getElem?_cons_succ] at h
      have h2 := ih (i + 1) j' x h
      simp only [copyLoopAux, List.getElem?_cons_succ]
      rw [h2]
      congr 3
      omega

/-- C4: the copy loop of `copy_images_list` yields exactly one
destination per input, in input order; the destination for the
`j`-th (0-based) input is `image_dir / (prefix ++ pad5 (j+1) ++ suffix)`
with the original suffix, except that a recognized raw suffix
(lowercased `.cr2`) is replaced by `.jpg`; and on a nonempty input list
`copy_images_list` returns exactly that list of destinations. -/
theorem copy_images_list_naming (d p : String) (l : List FPath) :
    ((copyImagesLoop d p l).2).length = l.length ∧
    (∀ j x, l[j]? = some x →
      ((copyImagesLoop d p l).2)[j]? =
        some (FPath.mk d (p ++ pad5 (j + 1))
          (if strLower x.ext ∈ ALLOWED_RAW_EXTS then RAW_CONVERTED_SUFFIX else x.ext))) ∧
    (l ≠ [] → copy_images_list d p l true = Except.ok ((copyImagesLoop d p l).2)) := by
  refine ⟨copyLoopAux_snd_length d p l 0, ?_, ?_⟩
  · intro j x h
    have h2 := copyLoopAux_snd_get d p l 0 j x h
    unfold copyImagesLoop
    rw [h2]
    simp only [Nat.zero_add, destFor]
    by_cases hr : strLower x.ext ∈ ALLOWED_RAW_EXTS
    · rw [if_pos hr, if_pos hr]
    · rw [if_neg hr, if_neg hr]
  · intro hne
    have hlen : ((copyImagesLoop d p l).2).length = l.length := copyLoopAux_snd_length d p l 0
    have hcop : (copyImagesLoop d p l).2 ≠ [] := by
      intro hc
      apply hne
      apply List.length_eq_zero.mp
      rw [← hlen, hc]
      rfl
    simp only [copy_images_list]
    rw [if_neg]
    intro hand
    exact hcop hand.2

/-- Witness for C4 at a concrete two-element list (one raw `.CR2` input,
one `.png` input). -/
theorem copy_images_list_naming_witness :
    ((copyImagesLoop "images" "frame_" [⟨"d", "a", ".CR2"⟩, ⟨"d", "b", ".png"⟩]).2)[0]? =
      some ⟨"images", "frame_" ++ pad5 1, RAW_CONVERTED_SUFFIX⟩ ∧
    ((copyImagesLoop "images" "frame_" [⟨"d", "a", ".CR2"⟩, ⟨"d", "b", ".png"⟩]).2)[1]? =
      some ⟨"images", "frame_" ++ pad5 2, ".png"⟩ ∧
    copy_images_list "images" "frame_" [⟨"d", "a", ".CR2"⟩, ⟨"d", "b", ".png"⟩] true =
      Except.ok ((copyImagesLoop "images" "frame_" [⟨"d", "a", ".CR2"⟩, ⟨"d", "b", ".png"⟩]).2) := by
  have h := copy_images_list_naming "images" "frame_" [⟨"d", "a", ".CR2"⟩, ⟨"d", "b", ".png"⟩]
  refine ⟨?_, ?_, h.2.2 (by decide)⟩
  · have h0 := h.2.1 0 ⟨"d", "a", ".CR2"⟩ (by rfl)
    rw [h0]
    decide
  · have h1 := h.2.1 1 ⟨"d", "b", ".png"⟩ (by rfl)
    rw [h1]
    decide

/-- C2: evaluating `copy_images_list` on an empty image list with the
default `same_dimensions=True` raises `IndexError` (at
`copied_image_paths[0].suffix` while building the batched transcoder
command) instead of logging the zero-image warning and returning an
empty list. -/
theorem copy_images_list_empty_raises :
    copy_images_list "images" "frame_" [] true = Except.error PyErr.indexError := by
  rfl

/-- C10: the copy loop of `copy_images_list` overwrites the input-list
entry of every recognized raw input with the converted destination path
(suffix `.jpg`), leaves every non-raw entry unchanged, and the mapping
built by `copy_images` pairs exactly these substituted entries with the
copied paths. -/
theorem copy_images_list_mutates_raw (d p : String) (l : List FPath) (j : ℕ) (x : FPath)
    (hx : l[j]? = some x) :
    ((copyImagesLoop d p l).1)[j]? =
      some (if strLower x.ext ∈ ALLOWED_RAW_EXTS
        then (⟨d, p ++ pad5 (j + 1), RAW_CONVERTED_SUFFIX⟩ : FPath) else x) ∧
    (copy_images_pairs d p l)[j]? =
      some ((if strLower x.ext ∈ ALLOWED_RAW_EXTS
          then (⟨d, p ++ pad5 (j + 1), RAW_CONVERTED_SUFFIX⟩ : FPath) else x),
        ⟨d, p ++ pad5 (j + 1),
          if strLower x.ext ∈ ALLOWED_RAW_EXTS then RAW_CONVERTED_SUFFIX else x.ext⟩) := by
  have h1 := copyLoopAux_fst_get d p l 0 j x hx
  have h2 := copyLoopAux_snd_get d p l 0 j x hx
  have hfst : ((copyImagesLoop d p l).1)[j]? =
      some (if strLower x.ext ∈ ALLOWED_RAW_EXTS
        then (⟨d, p ++ pad5 (j + 1), RAW_CONVERTED_SUFFIX⟩ : FPath) else x) := by
    unfold copyImagesLoop
    rw [h1]
    simp only [Nat.zero_add, destFor]
    by_cases hr : strLower x.ext ∈ ALLOWED_RAW_EXTS
    · rw [if_pos hr, if_pos hr, if_pos hr]
    · rw [if_neg hr, if_neg hr]
  refine ⟨hfst, ?_⟩
  have hsnd : ((copyImagesLoop d p l).2)[j]? =
      some (⟨d, p ++ pad5 (j + 1),
        if strLower x.ext ∈ ALLOWED_RAW_EXTS then RAW_CONVERTED_SUFFIX else x.ext⟩ : FPath) := by
    unfold copyImagesLoop
    rw [h2]
    simp only [Nat.zero_add, destFor]
    by_cases hr : strLower x.ext ∈ ALLOWED_RAW_EXTS
    · rw [if_pos hr, if_pos hr]
    · rw [if_neg hr, if_neg hr]
  unfold copy_images_pairs
  rw [List.getElem?_zip_eq_some]
  exact ⟨hfst, hsnd⟩

/-- Witness for C10: on a concrete list the raw entry is substituted and
the non-raw entry is untouched. -/
theorem copy_images_list_mutates_raw_witness :
    ((copyImagesLoop "images" "frame_" [⟨"d", "a", ".cr2"⟩, ⟨"d", "b", ".png"⟩]).1)[0]? =
      some ⟨"images", "frame_" ++ pad5 1, RAW_CONVERTED_SUFFIX⟩ ∧
    ((copyImagesLoop "images" "frame_" [⟨"d", "a", ".cr2"⟩, ⟨"d", "b", ".png"⟩]).1)[1]? =
      some ⟨"d", "b", ".png"⟩ := by
  have h0 := (copy_images_list_mutates_raw "images" "frame_"
    [⟨"d", "a", ".cr2"⟩, ⟨"d", "b", ".png"⟩] 0 ⟨"d", "a", ".cr2"⟩ (by rfl)).1
  have h1 := (copy_images_list_mutates_raw "images" "frame_"
    [⟨"d", "a", ".cr2"⟩, ⟨"d", "b", ".png"⟩] 1 ⟨"d", "b", ".png"⟩ (by rfl)).1
  constructor
  · rw [h0]
    decide
  · rw [h1]
    decide

theorem find_tool_other_sfm (s f m : String) (h1 : s ≠ "any") (h2 : s ≠ "colmap")
    (h3 : s ≠ "hloc") :
    find_tool_feature_matcher_combination s f m = (none, none, none) := by
  simp only [find_tool_feature_matcher_combination]
  rw [if_neg h1, if_neg h2, if_neg h3]

/-- C1: totality and branch behaviour of
`find_tool_feature_matcher_combination` over the documented literal
sets: the wildcard tool resolves to colmap exactly on
(any|sift, any|NN) and to hloc otherwise; the colmap path returns the
canonical triple on (any|sift, any|NN) and the all-null triple
otherwise; the hloc path maps any/superpoint features to
superpoint_aachen, the any matcher to superpoint+lightglue, the NN
matcher to NN-mutual, passes all other explicit values through, and
returns hloc as the tool; any other tool yields the all-null triple;
and the result is always a fully concrete triple (with components from
the declared concrete output sets) or the all-null triple, never
partial. -/
theorem find_tool_total (s f m : String) (hf : f ∈ featureLits) (hm : m ∈ matcherLits) :
    (s = "any" →
      find_tool_feature_matcher_combination s f m =
        (if (f = "any" ∨ f = "sift") ∧ (m = "any" ∨ m = "NN")
          then find_tool_feature_matcher_combination "colmap" f m
          else find_tool_feature_matcher_combination "hloc" f m)) ∧
    (find_tool_feature_matcher_combination "colmap" f m =
      (if (f = "any" ∨ f = "sift") ∧ (m = "any" ∨ m = "NN")
        then (some "colmap", some "sift", some "NN") else (none, none, none))) ∧
    ((find_tool_feature_matcher_combination "hloc" f m).1 = some "hloc" ∧
      (f = "any" ∨ f = "superpoint" →
        (find_tool_feature_matcher_combination "hloc" f m).2.1 = some "superpoint_aachen") ∧
      (¬(f = "any" ∨ f = "superpoint") →
        (find_tool_feature_matcher_combination "hloc" f m).2.1 = some f) ∧
      (m = "any" →
        (find_tool_feature_matcher_combination "hloc" f m).2.2 = some "superpoint+lightglue") ∧
      (m = "NN" →
        (find_tool_feature_matcher_combination "hloc" f m).2.2 = some "NN-mutual") ∧
      (¬(m = "any" ∨ m = "NN") →
        (find_tool_feature_matcher_combination "hloc" f m).2.2 = some m)) ∧
    (¬(s = "any" ∨ s = "colmap" ∨ s = "hloc") →
      find_tool_feature_matcher_combination s f m = (none, none, none)) ∧
    (find_tool_feature_matcher_combination s f m = (none, none, none) ∨
      ((∃ a ∈ (["colmap", "hloc"] : List String),
          (find_tool_feature_matcher_combination s f m).1 = some a) ∧
        (∃ b ∈ featureOutLits, (find_tool_feature_matcher_combination s f m).2.1 = some b) ∧
        (∃ c ∈ matcherOutLits, (find_tool_feature_matcher_combination s f m).2.2 = some c))) := by
  have hF := hf
  have hM := hm
  simp only [featureLits, List.mem_cons, List.not_mem_nil, or_false] at hF
  simp only [matcherLits, List.mem_cons, List.not_mem_nil, or_false] at hM
  refine ⟨?_, ?_, ?_, ?_, ?_⟩
  · intro hs
    subst hs
    rcases hF with rfl | rfl | rfl | rfl | rfl | rfl | rfl | rfl | rfl | rfl <;>
      rcases hM with rfl | rfl | rfl | rfl | rfl | rfl | rfl | rfl | rfl | rfl <;> decide
  · rcases hF with rfl | rfl | rfl | rfl | rfl | rfl | rfl | rfl | rfl | rfl <;>
      rcases hM with rfl | rfl | rfl | rfl | rfl | rfl | rfl | rfl | rfl | rfl <;> decide
  · rcases hF with rfl | rfl | rfl | rfl | rfl | rfl | rfl | rfl | rfl | rfl <;>
      rcases hM with rfl | rfl | rfl | rfl | rfl | rfl | rfl | rfl | rfl | rfl <;> decide
  · intro hs
    push_neg at hs
    exact find_tool_other_sfm s f m hs.1 hs.2.1 hs.2.2
  · by_cases hs1 : s = "any"
    · subst hs1
      rcases hF with rfl | rfl | rfl | rfl | rfl | rfl | rfl | rfl | rfl | rfl <;>
        rcases hM with rfl | rfl | rfl | rfl | rfl | rfl | rfl | rfl | rfl | rfl <;> decide
    · by_cases hs2 : s = "colmap"
      · subst hs2
        rcases hF with rfl | rfl | rfl | rfl | rfl | rfl | rfl | rfl | rfl | rfl <;>
          rcases hM with rfl | rfl | rfl | rfl | rfl | rfl | rfl | rfl | rfl | rfl <;> decide
      · by_cases hs3 : s = "hloc"
        · subst hs3
          rcases hF with rfl | rfl | rfl | rfl | rfl | rfl | rfl | rfl | rfl | rfl <;>
            rcases hM with rfl | rfl | rfl | rfl | rfl | rfl | rfl | rfl | rfl | rfl <;> decide
        · exact Or.inl (find_tool_other_sfm s f m hs1 hs2 hs3)

/-- Witness for C1: the colmap path on the all-wildcard input returns
the canonical triple, and the hloc path resolves the wildcard feature to
superpoint_aachen. -/
theorem find_tool_total_witness :
    find_tool_feature_matcher_combination "colmap" "any" "any" =
      (some "colmap", some "sift", some "NN") ∧
    (find_tool_feature_matcher_combination "hloc" "any" "any").2.1 =
      some "superpoint_aachen" := by
  have h := find_tool_total "colmap" "any" "any" (by decide) (by decide)
  constructor
  · have h2 := h.2.1
    rw [if_pos (by decide :
      (("any" : String) = "any" ∨ ("any" : String) = "sift") ∧
        (("any" : String) = "any" ∨ ("any" : String) = "NN"))] at h2
    exact h2
  · exact h.2.2.1.2.1 (Or.inl rfl)

theorem sampleAux_length : ∀ (k st : ℕ) (pool : List ℕ),
    (sampleAux st k pool).length = min k pool.length := by
  intro k
  induction k with
  | zero => intro st pool; simp [sampleAux]
  | succ k ih =>
    intro st pool
    by_cases h : pool.length = 0
    · simp [sampleAux, h]
    · simp only [sampleAux]
      rw [dif_neg h]
      have hx : pool.get ⟨st % pool.length, Nat.mod_lt _ (Nat.pos_of_ne_zero h)⟩ ∈ pool :=
        List.get_mem pool _ _
      simp only [List.length_cons]
      rw [ih (lcgStep st) _, List.length_erase_of_mem hx]
      omega

theorem sampleAux_subset : ∀ (k st : ℕ) (pool : List ℕ) (x : ℕ),
    x ∈ sampleAux st k pool → x ∈ pool := by
  intro k
  induction k with
  | zero => intro st pool x hx; simp [sampleAux] at hx
  | succ k ih =>
    intro st pool x hx
    by_cases h : pool.length = 0
    · simp [sampleAux, h] at hx
    · simp only [sampleAux] at hx
      rw [dif_neg h] at hx
      rcases List.mem_cons.mp hx with h1 | h1
      · subst h1
        exact List.get_mem pool _ _
      · exact List.mem_of_mem_erase (ih (lcgStep st) _ x h1)

theorem sampleAux_nodup : ∀ (k st : ℕ) (pool : List ℕ),
    pool.Nodup → (sampleAux st k pool).Nodup := by
  intro k
  induction k with
  | zero => intro st pool _; simp [sampleAux]
  | succ k ih =>
    intro st pool hnd
    by_cases h : pool.length = 0
    · simp [sampleAux, h]
    · simp only [sampleAux]
      rw [dif_neg h]
      refine List.nodup_cons.mpr ⟨?_, ih (lcgStep st) _ (hnd.erase _)⟩
      intro hmem
      exact hnd.not_mem_erase (sampleAux_subset k (lcgStep st) _ _ hmem)

theorem sampleSorted_length (S : ℤ) (n t : ℕ) (h : t ≤ n) :
    (sampleSorted S n t).length = t := by
  unfold sampleSorted
  rw [(List.perm_insertionSort (· ≤ ·) _).length_eq, sampleAux_length, List.length_range]
  omega

theorem sampleSorted_nodup (S : ℤ) (n t : ℕ) : (sampleSorted S n t).Nodup := by
  unfold sampleSorted
  exact (List.perm_insertionSort (· ≤ ·) _).nodup_iff.mpr
    (sampleAux_nodup t _ (List.range n) (List.nodup_range n))

theorem sampleSorted_sorted (S : ℤ) (n t : ℕ) :
    List.Sorted (· ≤ ·) (sampleSorted S n t) := by
  unfold sampleSorted
  exact List.sorted_insertionSort (· ≤ ·) _

theorem sampleSorted_lt (S : ℤ) (n t : ℕ) : ∀ i ∈ sampleSorted S n t, i < n := by
  intro i hi
  unfold sampleSorted at hi
  have h2 := (List.perm_insertionSort (· ≤ ·) _).mem_iff.mp hi
  exact List.mem_range.mp (sampleAux_subset t _ _ i h2)

/-- C3 counterexample: the seed 0 is supplied but falsy in Python
(`if random_seed:`), so with 100 frames and target 10 the
interval-spacing policy is used instead of seeded random sampling. -/
theorem frameSelect_seed_zero_uses_spacing :
    frameSelect (some 0) 100 10 =
      Except.ok ⟨SelectPolicy.thumbnail 10, thumbnailCmd 10, false, false, some 10⟩ := by
  rfl

/-- C3 (amended to nonzero seeds): for every supplied nonzero seed `S`
and `1 ≤ t ≤ N`, the frame-selection block takes the random-sampling
branch with the sorted seeded sample — a pure function of `(S, N, t)`,
hence identical across runs — consisting of exactly `t` distinct sorted
indices from `[0, N)`; neither the interval-spacing nor the
extract-all-frames policy is used and no 8-bit pixel format is forced. -/
theorem frameSelect_random_seed (S : ℤ) (N t : ℕ) (hS : S ≠ 0) (ht : 1 ≤ t) (htN : t ≤ N) :
    frameSelect (some S) N t =
      Except.ok ⟨SelectPolicy.randomSample (sampleSorted S N t),
        randomSelectCmd (sampleSorted S N t), false, false, some t⟩ ∧
    (sampleSorted S N t).length = t ∧
    (sampleSorted S N t).Nodup ∧
    List.Sorted (· ≤ ·) (sampleSorted S N t) ∧
    (∀ i ∈ sampleSorted S N t, i < N) := by
  refine ⟨?_, sampleSorted_length S N t htN, sampleSorted_nodup S N t,
    sampleSorted_sorted S N t, sampleSorted_lt S N t⟩
  have htr : truthySeed (some S) = true := by
    simp [truthySeed, hS]
  simp only [frameSelect, htr]
  rw [if_neg (by omega : ¬ t = 0), if_pos trivial, if_neg (by omega : ¬ N < t)]
  rfl

/-- Witness for C3 at seed 1, 5 frames, target 3. -/
theorem frameSelect_random_seed_witness :
    frameSelect (some 1) 5 3 =
      Except.ok ⟨SelectPolicy.randomSample (sampleSorted 1 5 3),
        randomSelectCmd (sampleSorted 1 5 3), false, false, some 3⟩ ∧
    (sampleSorted 1 5 3).length = 3 := by
  have h := frameSelect_random_seed 1 5 3 (by decide) (by decide) (by decide)
  exact ⟨h.1, h.2.1⟩

/-- C5: with no random seed and a positive target, letting
`spacing = N // t`: when `spacing > 1` the block picks the
thumbnail/interval filter, reports `ceil(N / spacing)` frames, and does
not force a pixel format; otherwise it warns, uses no frame-selection
filter at all, and forces 8-bit pixel output; the two branches are
mutually exclusive. -/
theorem frameSelect_no_seed (N t : ℕ) (ht : 1 ≤ t) :
    (1 < N / t →
      frameSelect none N t =
        Except.ok ⟨SelectPolicy.thumbnail (N / t), thumbnailCmd (N / t), false, false,
          some (ceilNat N (N / t))⟩) ∧
    (¬ 1 < N / t →
      frameSelect none N t = Except.ok ⟨SelectPolicy.allFrames, "", true, true, none⟩) := by
  have htr : truthySeed none = false := rfl
  constructor
  · intro h
    simp only [frameSelect, htr]
    rw [if_neg (by omega : ¬ t = 0)]
    simp only [Bool.false_eq_true, if_false]
    rw [if_pos h]
  · intro h
    simp only [frameSelect, htr]
    rw [if_neg (by omega : ¬ t = 0)]
    simp only [Bool.false_eq_true, if_false]
    rw [if_neg h]

/-- Witness for C5: 100 frames with target 10 take the thumbnail branch;
10 frames with target 10 take the extract-all branch. -/
theorem frameSelect_no_seed_witness :
    frameSelect none 100 10 =
      Except.ok ⟨SelectPolicy.thumbnail (100 / 10), thumbnailCmd (100 / 10), false, false,
        some (ceilNat 100 (100 / 10))⟩ ∧
    frameSelect none 10 10 = Except.ok ⟨SelectPolicy.allFrames, "", true, true, none⟩ := by
  exact ⟨(frameSelect_no_seed 100 10 (by decide)).1 (by decide),
    (frameSelect_no_seed 10 10 (by decide)).2 (by decide)⟩

/-- C9: with `keep_image_dir=False`, whenever `convert_video_to_images`
exits fatally (out-of-range crop fraction, video path a directory,
missing video, or zero frames), its event trace is exactly the removal
of all `D+1` pre-existing output directories followed by the level-0
directory creation and only then the fatal exit — the deletions happen
before any validation, so the fatal error is not atomic with respect to
the filesystem. -/
theorem convert_video_rmtree_before_fatal (env : VideoEnv) (image_dir : String)
    (D : ℕ) (crop : ℚ × ℚ × ℚ × ℚ)
    (hfatal : cropOutOfRange crop = true ∨ env.isDir = true ∨ env.fileExists = false ∨
      env.numFrames = 0) :
    convertVideoTrace env image_dir D crop false =
      (List.range (D + 1)).map (fun i => FsEvent.rmTree (levelDir image_dir i)) ++
        [FsEvent.mkDir image_dir] ++ [FsEvent.exitProc 1] := by
  obtain ⟨bd, bf, nf⟩ := env
  by_cases h1 : cropOutOfRange crop = true
  · simp [convertVideoTrace, h1]
  · cases bd
    · cases bf
      · simp [convertVideoTrace, h1]
      · have h4 : nf = 0 := by
          rcases hfatal with h | h | h | h
          · exact absurd h h1
          · cases h
          · cases h
          · exact h
        simp [convertVideoTrace, h1, h4]
    · simp [convertVideoTrace, h1]

/-- Witness for C9: a missing video file with two downscale levels —
all three level directories are removed, the output directory is
recreated, and only then does the process exit. -/
theorem convert_video_rmtree_before_fatal_witness :
    convertVideoTrace ⟨false, false, 5⟩ "images" 2 (0, 0, 0, 0) false =
      (List.range (2 + 1)).map (fun i => FsEvent.rmTree (levelDir "images" i)) ++
        [FsEvent.mkDir "images"] ++ [FsEvent.exitProc 1] := by
  exact convert_video_rmtree_before_fatal ⟨false, false, 5⟩ "images" 2 (0, 0, 0, 0)
    (Or.inr (Or.inr (Or.inl rfl)))

theorem mapWithIdx_map_range' {α β : Type} (f : ℕ → α → β) (g : ℕ → α) :
    ∀ (n s : ℕ), mapWithIdx f s ((List.range' s n).map g) =
      (List.range' s n).map (fun i => f i (g i)) := by
  intro n
  induction n with
  | zero => intro s; rfl
  | succ n ih =>
    intro s
    rw [List.range'_succ]
    simp only [List.map_cons, mapWithIdx]
    rw [ih (s + 1)]

theorem mapWithIdx_map_range {α β : Type} (f : ℕ → α → β) (g : ℕ → α) (n : ℕ) :
    mapWithIdx f 0 ((List.range n).map g) = (List.range n).map (fun i => f i (g i)) := by
  rw [List.range_eq_range']
  exact mapWithIdx_map_range' f g n 0

theorem cv2_circle_zeros (h w cx cy R v : ℕ) :
    cv2_circle (np_zeros h w) cx cy R v =
      mkMat h w (fun y x =>
        if ((x : ℤ) - cx) ^ 2 + ((y : ℤ) - cy) ^ 2 ≤ (R : ℤ) ^ 2 then v else 0) := by
  simp only [cv2_circle, np_zeros, mkMat]
  rw [mapWithIdx_map_range]
  apply List.map_congr_left
  intro y _
  rw [mapWithIdx_map_range]

theorem sliceAssign2_zeros (h w r0 r1 c0 c1 v : ℕ) :
    sliceAssign2 (np_zeros h w) r0 r1 c0 c1 v =
      mkMat h w (fun y x =>
        if (r0 ≤ y ∧ y < r1) ∧ (c0 ≤ x ∧ x < c1) then v else 0) := by
  simp only [sliceAssign2, np_zeros, mkMat]
  rw [mapWithIdx_map_range]
  apply List.map_congr_left
  intro y _
  by_cases hr : r0 ≤ y ∧ y < r1
  · rw [if_pos hr, mapWithIdx_map_range]
    apply List.map_congr_left
    intro x _
    by_cases hc : c0 ≤ x ∧ x < c1
    · rw [if_pos hc, if_pos ⟨hr, hc⟩]
    · rw [if_neg hc, if_neg (fun hand => hc hand.2)]
  · rw [if_neg hr]
    apply List.map_congr_left
    intro x _
    rw [if_neg (fun hand => hr hand.1)]

theorem countP_range_Ico : ∀ (w a b : ℕ), a ≤ b → b ≤ w →
    (List.range w).countP (fun x => decide (a ≤ x ∧ x < b)) = b - a := by
  intro w
  induction w with
  | zero =>
    intro a b hab hbw
    have hb0 : b = 0 := by omega
    have ha0 : a = 0 := by omega
    subst hb0
    subst ha0
    rfl
  | succ w ih =>
    intro a b hab hbw
    rw [List.range_succ, List.countP_append]
    by_cases hb : b ≤ w
    · rw [ih a b hab hb]
      have hs : List.countP (fun x => decide (a ≤ x ∧ x < b)) [w] = 0 := by
        simp only [List.countP_cons, List.countP_nil, Nat.zero_add, decide_eq_true_eq]
        rw [if_neg (by omega : ¬ (a ≤ w ∧ w < b))]
      rw [hs]
      omega
    · have hbw1 : b = w + 1 := by omega
      subst hbw1
      by_cases ha : a ≤ w
      · have hcg : (List.range w).countP (fun x => decide (a ≤ x ∧ x < w + 1)) =
            (List.range w).countP (fun x => decide (a ≤ x ∧ x < w)) := by
          apply List.countP_congr
          intro x hx
          have hxw := List.mem_range.mp hx
          simp only [decide_eq_true_eq]
          omega
        rw [hcg, ih a w ha (le_refl w)]
        have hs : List.countP (fun x => decide (a ≤ x ∧ x < w + 1)) [w] = 1 := by
          simp only [List.countP_cons, List.countP_nil, Nat.zero_add, decide_eq_true_eq]
          rw [if_pos (by omega : a ≤ w ∧ w < w + 1)]
        rw [hs]
        omega
      · have ha1 : a = w + 1 := by omega
        subst ha1
        have h1 : (List.range w).countP (fun x => decide (w + 1 ≤ x ∧ x < w + 1)) = 0 := by
          apply List.countP_eq_zero.mpr
          intro x hx
          simp only [decide_eq_true_eq]
          omega
        have h2 : List.countP (fun x => decide (w + 1 ≤ x ∧ x < w + 1)) [w] = 0 := by
          simp only [List.countP_cons, List.countP_nil, Nat.zero_add, decide_eq_true_eq]
          rw [if_neg (by omega : ¬ (w + 1 ≤ w ∧ w < w + 1))]
        rw [h1, h2]
        omega

theorem sum_map_ite (l : List ℕ) (P : ℕ → Prop) [DecidablePred P] (K : ℕ) :
    (l.map (fun y => if P y then K else 0)).sum = K * l.countP (fun y => decide (P y)) := by
  induction l with
  | nil => rfl
  | cons x xs ih =>
    simp only [List.map_cons, List.sum_cons, List.countP_cons, decide_eq_true_eq, ih]
    by_cases hx : P x
    · rw [if_pos hx, if_pos hx]
      ring
    · rw [if_neg hx, if_neg hx]
      ring

theorem maskOnes_mkMat_rect (h w r0 r1 c0 c1 : ℕ) (hr01 : r0 ≤ r1) (hr1 : r1 ≤ h)
    (hc01 : c0 ≤ c1) (hc1 : c1 ≤ w) :
    maskOnes (mkMat h w (fun y x =>
        if (r0 ≤ y ∧ y < r1) ∧ (c0 ≤ x ∧ x < c1) then 1 else 0)) =
      (r1 - r0) * (c1 - c0) := by
  unfold maskOnes mkMat
  rw [List.map_map]
  have hrow : ∀ y : ℕ,
      List.countP (fun v => v == 1)
        ((List.range w).map (fun x =>
          if (r0 ≤ y ∧ y < r1) ∧ (c0 ≤ x ∧ x < c1) then 1 else 0)) =
      (if r0 ≤ y ∧ y < r1 then c1 - c0 else 0) := by
    intro y
    rw [List.countP_map]
    by_cases hy : r0 ≤ y ∧ y < r1
    · rw [if_pos hy]
      have hcg : (List.range w).countP
            ((fun v => v == 1) ∘ (fun x => if (r0 ≤ y ∧ y < r1) ∧ (c0 ≤ x ∧ x < c1) then 1 else 0)) =
          (List.range w).countP (fun x => decide (c0 ≤ x ∧ x < c1)) := by
        apply List.countP_congr
        intro x _
        simp only [Function.comp_apply, decide_eq_true_eq]
        by_cases hc : c0 ≤ x ∧ x < c1
        · rw [if_pos ⟨hy, hc⟩]
          simp [hc]
        · rw [if_neg (fun hand => hc hand.2)]
          simp [hc]
      rw [hcg]
      exact countP_range_Ico w c0 c1 hc01 hc1
    · rw [if_neg hy]
      apply List.countP_eq_zero.mpr
      intro x _
      simp only [Function.comp_apply]
      rw [if_neg (fun hand => hy hand.1)]
      simp
  have hmc : ((List.range h).map
        ((fun row => List.countP (fun v => v == 1) row) ∘ (fun y =>
          (List.range w).map (fun x =>
            if (r0 ≤ y ∧ y < r1) ∧ (c0 ≤ x ∧ x < c1) then 1 else 0)))) =
      (List.range h).map (fun y => if r0 ≤ y ∧ y < r1 then c1 - c0 else 0) := by
    apply List.map_congr_left
    intro y _
    exact hrow y
  rw [hmc, sum_map_ite (List.range h) (fun y => r0 ≤ y ∧ y < r1) (c1 - c0),
    countP_range_Ico h r0 r1 hr01 hr1]
  ring

theorem toNatFloor_le (q : ℚ) (hq : 0 ≤ q) : (toNatFloor q : ℚ) ≤ q := by
  unfold toNatFloor
  have h1 : (0 : ℤ) ≤ ⌊q⌋ := Int.floor_nonneg.mpr hq
  have h2 : ((⌊q⌋.toNat : ℤ) : ℚ) ≤ q := by
    rw [Int.toNat_of_nonneg h1]
    exact Int.floor_le q
  exact_mod_cast h2

theorem toNatFloor_pair_le (t b : ℚ) (h : ℕ) (ht : 0 ≤ t) (hb : 0 ≤ b) (htb : t + b ≤ 1) :
    toNatFloor (t * h) + toNatFloor (b * h) ≤ h := by
  have h1 : (toNatFloor (t * h) : ℚ) ≤ t * h := toNatFloor_le _ (by positivity)
  have h2 : (toNatFloor (b * h) : ℚ) ≤ b * h := toNatFloor_le _ (by positivity)
  have h3 : ((toNatFloor (t * h) + toNatFloor (b * h) : ℕ) : ℚ) ≤ (h : ℚ) := by
    push_cast
    nlinarith [Nat.cast_nonneg (α := ℚ) h]
  exact_mod_cast h3

/-- C8: `generate_crop_mask` returns no mask when all four fractions are
exactly zero; exits fatally when some fraction lies outside `[0,1]`;
otherwise returns the `h×w` matrix that is 1 exactly on the retained
rectangle (rows `int(t*h) ≤ y < h - int(b*h)`, columns
`int(l*w) ≤ x < w - int(r*w)`) and 0 on the cropped border; and for
fractions in `[0,1]` with `t+b < 1` and `l+r < 1` the number of
1-pixels is `(1-t-b)*(1-l-r)*h*w` evaluated with each of `t*h`, `b*h`,
`l*w`, `r*w` truncated to an integer, i.e.
`(h - int(t*h) - int(b*h)) * (w - int(l*w) - int(r*w))`. -/
theorem generate_crop_mask_spec (hh ww : ℕ) (t b l r : ℚ) :
    (generate_crop_mask hh ww (0, 0, 0, 0) = Except.ok none) ∧
    (cropOutOfRange (t, b, l, r) = true →
      generate_crop_mask hh ww (t, b, l, r) = Except.error (PyErr.systemExit 1)) ∧
    ((t, b, l, r) ≠ ((0 : ℚ), 0, 0, 0) → cropOutOfRange (t, b, l, r) = false →
      generate_crop_mask hh ww (t, b, l, r) =
        Except.ok (some (mkMat hh ww (fun y x =>
          if (toNatFloor (t * hh) ≤ y ∧ y < hh - toNatFloor (b * hh)) ∧
              (toNatFloor (l * ww) ≤ x ∧ x < ww - toNatFloor (r * ww)) then 1 else 0)))) ∧
    (0 ≤ t → 0 ≤ b → 0 ≤ l → 0 ≤ r → t + b < 1 → l + r < 1 →
      maskOnes (mkMat hh ww (fun y x =>
          if (toNatFloor (t * hh) ≤ y ∧ y < hh - toNatFloor (b * hh)) ∧
              (toNatFloor (l * ww) ≤ x ∧ x < ww - toNatFloor (r * ww)) then 1 else 0)) =
        (hh - toNatFloor (t * hh) - toNatFloor (b * hh)) *
          (ww - toNatFloor (l * ww) - toNatFloor (r * ww))) := by
  refine ⟨?_, ?_, ?_, ?_⟩
  · simp [generate_crop_mask]
  · intro hco
    unfold generate_crop_mask
    by_cases hz : ((t, b, l, r) : ℚ × ℚ × ℚ × ℚ) = (0, 0, 0, 0)
    · rw [hz] at hco
      norm_num [cropOutOfRange] at hco
    · rw [if_neg hz, if_pos hco]
  · intro hne hco
    simp only [generate_crop_mask]
    rw [if_neg hne, if_neg (by simp [hco])]
    rw [sliceAssign2_zeros]
  · intro ht hb hl hr htb hlr
    have hrow : toNatFloor (t * hh) + toNatFloor (b * hh) ≤ hh :=
      toNatFloor_pair_le t b hh ht hb (le_of_lt htb)
    have hcol : toNatFloor (l * ww) + toNatFloor (r * ww) ≤ ww :=
      toNatFloor_pair_le l r ww hl hr (le_of_lt hlr)
    rw [maskOnes_mkMat_rect hh ww (toNatFloor (t * hh)) (hh - toNatFloor (b * hh))
      (toNatFloor (l * ww)) (ww - toNatFloor (r * ww))
      (by omega) (Nat.sub_le _ _) (by omega) (Nat.sub_le _ _)]
    congr 1 <;> omega

/-- Witness for C8: a 4×4 image with top fraction 1/2 — the mask is 1 on
the lower two rows and its 1-pixel count is `(4-2-0)*(4-0-0)`. -/
theorem generate_crop_mask_spec_witness :
    generate_crop_mask 4 4 ((1 : ℚ)/2, 0, 0, 0) =
      Except.ok (some (mkMat 4 4 (fun y x =>
        if (toNatFloor ((1 : ℚ)/2 * 4) ≤ y ∧ y < 4 - toNatFloor ((0 : ℚ) * 4)) ∧
            (toNatFloor ((0 : ℚ) * 4) ≤ x ∧ x < 4 - toNatFloor ((0 : ℚ) * 4)) then 1 else 0))) ∧
    maskOnes (mkMat 4 4 (fun y x =>
        if (toNatFloor ((1 : ℚ)/2 * 4) ≤ y ∧ y < 4 - toNatFloor ((0 : ℚ) * 4)) ∧
            (toNatFloor ((0 : ℚ) * 4) ≤ x ∧ x < 4 - toNatFloor ((0 : ℚ) * 4)) then 1 else 0)) =
      (4 - toNatFloor ((1 : ℚ)/2 * 4) - toNatFloor ((0 : ℚ) * 4)) *
        (4 - toNatFloor ((0 : ℚ) * 4) - toNatFloor ((0 : ℚ) * 4)) := by
  have h := generate_crop_mask_spec 4 4 ((1 : ℚ)/2) 0 0 0
  refine ⟨?_, ?_⟩
  · exact h.2.2.1 (by norm_num [Prod.ext_iff]) (by norm_num [cropOutOfRange])
  · exact h.2.2.2 (by norm_num) (by norm_num) (by norm_num) (by norm_num)
      (by norm_num) (by norm_num)

/-- C7: `generate_circle_mask h w r` exits fatally when `r ≤ 0`; for
`r > 0` it returns no mask exactly when `r ≥ 1`; for `0 < r < 1` it
returns the `h×w` matrix holding 1 exactly on the filled disk centered
at `(w//2, h//2)` of pixel radius `circleRadius r h w`, which equals the
integer truncation of `r * sqrt(w² + h²) / 2`. -/
theorem generate_circle_mask_spec (hh ww : ℕ) (r : ℚ) :
    (r ≤ 0 → generate_circle_mask hh ww r = Except.error (PyErr.systemExit 1)) ∧
    (0 < r → (generate_circle_mask hh ww r = Except.ok none ↔ 1 ≤ r)) ∧
    (0 < r → r < 1 →
      generate_circle_mask hh ww r =
        Except.ok (some (mkMat hh ww (fun y x =>
          if ((x : ℤ) - ((ww / 2 : ℕ) : ℤ)) ^ 2 + ((y : ℤ) - ((hh / 2 : ℕ) : ℤ)) ^ 2 ≤
              ((circleRadius r hh ww : ℕ) : ℤ) ^ 2 then 1 else 0)))) ∧
    (0 < r →
      circleRadius r hh ww =
        ⌊(r : ℝ) * Real.sqrt ((ww : ℝ) ^ 2 + (hh : ℝ) ^ 2) / 2⌋₊) := by
  refine ⟨?_, ?_, ?_, ?_⟩
  · intro hr
    unfold generate_circle_mask
    rw [if_pos hr]
  · intro hr
    unfold generate_circle_mask
    rw [if_neg (not_le.mpr hr)]
    by_cases h1 : 1 ≤ r
    · simp [h1]
    · simp [h1]
  · intro hr hr1
    unfold generate_circle_mask
    rw [if_neg (not_le.mpr hr), if_neg (by exact not_le.mpr hr1), cv2_circle_zeros]
  · intro hr
    have hnum : (0 : ℤ) < r.num := Rat.num_pos.mpr hr
    have key : (r : ℝ) * Real.sqrt ((ww : ℝ) ^ 2 + (hh : ℝ) ^ 2) / 2 =
        Real.sqrt ((r.num.toNat ^ 2 * (ww ^ 2 + hh ^ 2) : ℕ) : ℝ) / ((2 * r.den : ℕ) : ℝ) := by
      have hnn : ((r.num.toNat : ℕ) : ℝ) = ((r.num : ℤ) : ℝ) := by
        have h1 : ((r.num.toNat : ℕ) : ℤ) = r.num := Int.toNat_of_nonneg hnum.le
        exact_mod_cast congrArg (fun z : ℤ => (z : ℝ)) h1
      have hsq : ((r.num.toNat ^ 2 * (ww ^ 2 + hh ^ 2) : ℕ) : ℝ) =
          ((r.num : ℤ) : ℝ) ^ 2 * ((ww : ℝ) ^ 2 + (hh : ℝ) ^ 2) := by
        push_cast
        rw [hnn]
      have hnum' : (0 : ℝ) ≤ ((r.num : ℤ) : ℝ) := by exact_mod_cast hnum.le
      rw [hsq, Real.sqrt_mul (by positivity), Real.sqrt_sq hnum']
      rw [Rat.cast_def]
      push_cast
      ring
    rw [key, Nat.floor_div_nat, Real.nat_floor_real_sqrt_eq_nat_sqrt]
    rfl

/-- Witness for C7: a 4×4 mask at radius 1/2 is the explicit disk
matrix, and radius 2 (≥ 1) yields no mask. -/
theorem generate_circle_mask_spec_witness :
    generate_circle_mask 4 4 ((1 : ℚ)/2) =
      Except.ok (some (mkMat 4 4 (fun y x =>
        if ((x : ℤ) - ((4 / 2 : ℕ) : ℤ)) ^ 2 + ((y : ℤ) - ((4 / 2 : ℕ) : ℤ)) ^ 2 ≤
            ((circleRadius ((1 : ℚ)/2) 4 4 : ℕ) : ℤ) ^ 2 then 1 else 0))) ∧
    generate_circle_mask 4 4 (2 : ℚ) = Except.ok none := by
  constructor
  · exact (generate_circle_mask_spec 4 4 ((1 : ℚ)/2)).2.2.1 (by norm_num) (by norm_num)
  · exact ((generate_circle_mask_spec 4 4 (2 : ℚ)).2.1 (by norm_num)).mpr (by norm_num)

/-- C6: `generate_mask` combines the two masks elementwise when both are
present, returns the present one when exactly one exists, returns no
mask when both are absent, and in particular at the boundary radius 1.0
(where the circle mask is `None`) it returns exactly the crop-mask
result for every non-trivial in-range crop factor. -/
theorem generate_mask_combination (hh ww : ℕ) (c : ℚ × ℚ × ℚ × ℚ) (r : ℚ) :
    (∀ cm km, generate_crop_mask hh ww c = Except.ok (some cm) →
      generate_circle_mask hh ww r = Except.ok (some km) →
      generate_mask hh ww c r = Except.ok (some (matProd cm km))) ∧
    (∀ cm, generate_crop_mask hh ww c = Except.ok (some cm) →
      generate_circle_mask hh ww r = Except.ok none →
      generate_mask hh ww c r = Except.ok (some cm)) ∧
    (∀ km, generate_crop_mask hh ww c = Except.ok none →
      generate_circle_mask hh ww r = Except.ok (some km) →
      generate_mask hh ww c r = Except.ok (some km)) ∧
    (generate_crop_mask hh ww c = Except.ok none →
      generate_circle_mask hh ww r = Except.ok none →
      generate_mask hh ww c r = Except.ok none) ∧
    (c ≠ ((0 : ℚ), 0, 0, 0) → cropOutOfRange c = false → r = 1 →
      generate_mask hh ww c r = generate_crop_mask hh ww c) := by
  refine ⟨?_, ?_, ?_, ?_, ?_⟩
  · intro cm km h1 h2
    simp [generate_mask, h1, h2]
  · intro cm h1 h2
    simp [generate_mask, h1, h2]
  · intro km h1 h2
    simp [generate_mask, h1, h2]
  · intro h1 h2
    simp [generate_mask, h1, h2]
  · intro hne hco hr1
    subst hr1
    have hcirc : generate_circle_mask hh ww 1 = Except.ok none := by
      unfold generate_circle_mask
      rw [if_neg (by norm_num), if_pos (le_refl (1 : ℚ))]
    cases hcrop : generate_crop_mask hh ww c with
    | error e => simp [generate_mask, hcrop]
    | ok o =>
      cases o with
      | none => simp [generate_mask, hcrop, hcirc]
      | some cm => simp [generate_mask, hcrop, hcirc]

/-- Witness for C6: on a 2×2 image with top-crop 1/2 and radius 1.0 the
combined mask is exactly the crop mask. -/
theorem generate_mask_combination_witness :
    generate_mask 2 2 ((1 : ℚ)/2, 0, 0, 0) 1 = generate_crop_mask 2 2 ((1 : ℚ)/2, 0, 0, 0) := by
  exact (generate_mask_combination 2 2 ((1 : ℚ)/2, 0, 0, 0) 1).2.2.2.2
    (by norm_num [Prod.ext_iff]) (by norm_num [cropOutOfRange]) rfl
